import Mathlib

/-!
Shallow embedding of the growable sequence container of this repository
(file src/vec.rs, together with the superseded draft in src/lib.rs).

Modelling choices:
 - A container state is the list of live (initialized) elements together
   with the allocated capacity.  The raw pointer is not observable; the
   live prefix of the buffer is the list.  The separate length field of
   the source always equals the number of live elements, so length is
   derived as the list length.
 - The element byte size (elemSize) and the platform constant isize::MAX
   (isizeMax), both compile-time or platform constants in the source,
   are explicit parameters.
 - A fatal abort (a failed assert in the source) is modelled as the
   result none; successful execution is some.  Allocator out-of-memory
   (which the source turns into an abort via expect) is assumed not to
   occur, as is standard for functional models of allocation.
 - The consuming iterator holds the list of still-live elements in
   [start, end) together with the original capacity; start = end is the
   empty list.  Destruction (the Drop impls) is modelled as a function
   returning the list of element values destroyed and a count of
   deallocation calls.
-/

/-- Model of the container: the live elements in slots [0, length) and
the allocated capacity, as in the struct of src/vec.rs. -/
structure Vec (α : Type) where
  data : List α
  capacity : Nat
deriving DecidableEq

/-- Model of Vec::new: asserts that the element size is not zero, then
produces the empty container with no allocation. -/
def Vec.new (α : Type) (elemSize : Nat) : Option (Vec α) :=
  if elemSize = 0 then none
  else some { data := [], capacity := 0 }

/-- Model of Vec::length. -/
def Vec.length {α : Type} (v : Vec α) : Nat :=
  v.data.length

/-- Model of Vec::grow: a zero capacity becomes 1; otherwise the
capacity doubles, after the assert that the old byte size
capacity * elemSize is at most half of isize::MAX (usize division).
The live elements are unchanged (realloc preserves the old bytes). -/
def Vec.grow {α : Type} (elemSize isizeMax : Nat) (v : Vec α) : Option (Vec α) :=
  if v.capacity = 0 then
    some { v with capacity := 1 }
  else
    let new_cap := v.capacity * 2
    let old_num_bytes := v.capacity * elemSize
    if old_num_bytes ≤ isizeMax / 2 then
      some { v with capacity := new_cap }
    else
      none

/-- Model of Vec::push: grow when the container is full, then write the
element into slot length and increment length. -/
def Vec.push {α : Type} (elemSize isizeMax : Nat) (v : Vec α) (element : α) :
    Option (Vec α) :=
  match (if v.length = v.capacity then v.grow elemSize isizeMax else some v) with
  | none => none
  | some w => some { w with data := w.data ++ [element] }

/-- Model of Vec::pop: on an empty container yield none and leave the
state unchanged; otherwise decrement length and move the last live
element out. -/
def Vec.pop {α : Type} (v : Vec α) : Option α × Vec α :=
  if v.length = 0 then
    (none, v)
  else
    (v.data.getLast?, { v with data := v.data.dropLast })

/-- Model of Vec::insert: assert index ≤ length, grow when full, shift
the elements in [index, length) one slot right when index < length,
write the element into slot index, increment length. -/
def Vec.insert {α : Type} (elemSize isizeMax : Nat) (v : Vec α) (index : Nat)
    (element : α) : Option (Vec α) :=
  if index ≤ v.length then
    match (if v.length = v.capacity then v.grow elemSize isizeMax else some v) with
    | none => none
    | some w =>
        some { w with data :=
          if index < w.length then
            w.data.take index ++ element :: w.data.drop index
          else
            w.data ++ [element] }
  else
    none

/-- Model of Vec::remove: assert index < length, move the element at the
index out, shift the elements in [index+1, old length) one slot left,
with length decremented. -/
def Vec.remove {α : Type} (v : Vec α) (index : Nat) : Option (α × Vec α) :=
  if h : index < v.length then
    some (v.data.get ⟨index, h⟩,
      { v with data := v.data.take index ++ v.data.drop (index + 1) })
  else
    none

/-- Model of the IntoIter struct: the still-live elements in the range
[start, end) and the original capacity kept for deallocation. -/
structure IntoIter (α : Type) where
  elems : List α
  capacity : Nat
deriving DecidableEq

/-- Model of Vec::into_iter: ownership of the buffer moves to the
iterator; start is the base pointer and end is base + length, except
that a zero-capacity container yields end = start. -/
def Vec.into_iter {α : Type} (v : Vec α) : IntoIter α :=
  { elems := if v.capacity = 0 then [] else v.data,
    capacity := v.capacity }

/-- Model of IntoIter::next: when start = end yield none, otherwise move
the value at start out and advance start. -/
def IntoIter.next {α : Type} (it : IntoIter α) : Option α × IntoIter α :=
  match it.elems with
  | [] => (none, it)
  | x :: rest => (some x, { it with elems := rest })

/-- Model of IntoIter::next_back: when start = end yield none, otherwise
retreat end and move the value at the new end out. -/
def IntoIter.next_back {α : Type} (it : IntoIter α) : Option α × IntoIter α :=
  match it.elems.getLast? with
  | none => (none, it)
  | some x => (some x, { it with elems := it.elems.dropLast })

/-- The drain loop of the Drop impl of IntoIter: call next while
start differs from end; the result is the list of destroyed values in
the order they are destroyed. -/
def IntoIter.drain {α : Type} (it : IntoIter α) : List α :=
  match h : it.elems with
  | [] => []
  | x :: rest => x :: IntoIter.drain { elems := rest, capacity := it.capacity }
termination_by it.elems.length
decreasing_by simp [h]

/-- Model of the Drop impl of IntoIter: when capacity is not zero, drain
the remaining elements and deallocate the buffer once; when capacity is
zero do nothing.  The result is the list of destroyed element values and
the number of deallocation calls. -/
def IntoIter.drop {α : Type} (it : IntoIter α) : List α × Nat :=
  if it.capacity ≠ 0 then (it.drain, 1) else ([], 0)

/-- One step of mixed double-ended iteration: front is a next call, back
is a next_back call. -/
inductive Step where
  | front
  | back
deriving DecidableEq

/-- Run a sequence of next / next_back calls, recording every yielded
result (including none results) in call order. -/
def IntoIter.runTrace {α : Type} : IntoIter α → List Step → List (Option α) × IntoIter α
  | it, [] => ([], it)
  | it, op :: ops =>
    let p := match op with
      | Step.front => it.next
      | Step.back => it.next_back
    let r := p.2.runTrace ops
    (p.1 :: r.1, r.2)

/-- Run a sequence of next / next_back calls, collecting the values
yielded by next calls and by next_back calls separately, each list in
call order, together with the final iterator state. -/
def IntoIter.runOps {α : Type} : IntoIter α → List Step → List α × List α × IntoIter α
  | it, [] => ([], [], it)
  | it, Step.front :: ops =>
    match it.next with
    | (none, it1) => it1.runOps ops
    | (some x, it1) =>
      let r := it1.runOps ops
      (x :: r.1, r.2.1, r.2.2)
  | it, Step.back :: ops =>
    match it.next_back with
    | (none, it1) => it1.runOps ops
    | (some x, it1) =>
      let r := it1.runOps ops
      (r.1, x :: r.2.1, r.2.2)

/-- Push every element of a list in order. -/
def Vec.pushAll {α : Type} (elemSize isizeMax : Nat) : Vec α → List α → Option (Vec α)
  | v, [] => some v
  | v, x :: xs =>
    match v.push elemSize isizeMax x with
    | none => none
    | some w => Vec.pushAll elemSize isizeMax w xs

/-- Call pop n times, recording every result in call order. -/
def Vec.popN {α : Type} : Nat → Vec α → List (Option α) × Vec α
  | 0, v => ([], v)
  | n + 1, v =>
    let p := v.pop
    let r := Vec.popN n p.2
    (p.1 :: r.1, r.2)

namespace Draft

/-- Model of the superseded draft container struct of src/lib.rs. -/
structure Vec (α : Type) where
  data : List α
  capacity : Nat
deriving DecidableEq

/-- Model of the draft Vec::new of src/lib.rs. -/
def Vec.new (α : Type) (elemSize : Nat) : Option (Vec α) :=
  if elemSize = 0 then none
  else some { data := [], capacity := 0 }

/-- Model of the draft Vec::grow of src/lib.rs. -/
def Vec.grow {α : Type} (elemSize isizeMax : Nat) (v : Vec α) : Option (Vec α) :=
  if v.capacity = 0 then
    some { v with capacity := 1 }
  else
    let new_cap := v.capacity * 2
    let old_num_bytes := v.capacity * elemSize
    if old_num_bytes ≤ isizeMax / 2 then
      some { v with capacity := new_cap }
    else
      none

/-- Model of the draft Vec::push of src/lib.rs. -/
def Vec.push {α : Type} (elemSize isizeMax : Nat) (v : Vec α) (element : α) :
    Option (Vec α) :=
  match (if v.data.length = v.capacity then v.grow elemSize isizeMax else some v) with
  | none => none
  | some w => some { w with data := w.data ++ [element] }

/-- Model of the draft Vec::pop of src/lib.rs. -/
def Vec.pop {α : Type} (v : Vec α) : Option α × Vec α :=
  if v.data.length = 0 then
    (none, v)
  else
    (v.data.getLast?, { v with data := v.data.dropLast })

end Draft

/-- View of a draft container state as a final container state: the
observable fields (live elements and capacity) coincide. -/
def draftToVec {α : Type} (v : Draft.Vec α) : Vec α :=
  { data := v.data, capacity := v.capacity }

/-- One call of the push / pop interface shared by the draft and the
final container. -/
inductive VOp (α : Type) where
  | push (x : α)
  | pop
deriving DecidableEq

/-- Run a sequence of push and pop calls on the final container,
recording the result of every pop in call order; none is an abort
during a push. -/
def Vec.run {α : Type} (elemSize isizeMax : Nat) :
    Vec α → List (VOp α) → Option (List (Option α) × Vec α)
  | v, [] => some ([], v)
  | v, VOp.push x :: ops =>
    match v.push elemSize isizeMax x with
    | none => none
    | some w => Vec.run elemSize isizeMax w ops
  | v, VOp.pop :: ops =>
    let p := v.pop
    match Vec.run elemSize isizeMax p.2 ops with
    | none => none
    | some r => some (p.1 :: r.1, r.2)

/-- Run a sequence of push and pop calls on the draft container,
recording the result of every pop in call order; none is an abort
during a push. -/
def Draft.Vec.run {α : Type} (elemSize isizeMax : Nat) :
    Draft.Vec α → List (VOp α) → Option (List (Option α) × Draft.Vec α)
  | v, [] => some ([], v)
  | v, VOp.push x :: ops =>
    match v.push elemSize isizeMax x with
    | none => none
    | some w => Draft.Vec.run elemSize isizeMax w ops
  | v, VOp.pop :: ops =>
    let p := v.pop
    match Draft.Vec.run elemSize isizeMax p.2 ops with
    | none => none
    | some r => some (p.1 :: r.1, r.2)

/-! Helper lemmas about the container operations. -/

theorem Vec.grow_some {α : Type} {es im : Nat} {v w : Vec α}
    (h : v.grow es im = some w) :
    w.data = v.data ∧ v.capacity < w.capacity := by
  unfold Vec.grow at h
  split at h
  · injection h with h
    subst h
    simp [*]
  · dsimp only at h
    split at h
    · injection h with h
      subst h
      simp only [true_and]
      omega
    · exact absurd h (by simp)

theorem Vec.push_some {α : Type} {es im : Nat} {v w : Vec α} {x : α}
    (h : v.push es im x = some w) :
    w.data = v.data ++ [x] ∧ v.capacity ≤ w.capacity ∧
      (v.length = v.capacity → v.capacity < w.capacity) := by
  unfold Vec.push at h
  split at h
  · exact absurd h (by simp)
  · rename_i u hu
    injection h with h
    subst h
    split at hu
    · obtain ⟨h1, h2⟩ := Vec.grow_some hu
      exact ⟨by rw [h1], Nat.le_of_lt h2, fun _ => h2⟩
    · injection hu with hu
      subst hu
      rename_i hne
      exact ⟨rfl, le_refl _, fun hc => absurd hc hne⟩

theorem Vec.insert_some {α : Type} {es im : Nat} {v w : Vec α} {i : Nat} {x : α}
    (h : v.insert es im i x = some w) :
    i ≤ v.length ∧ w.data = v.data.take i ++ x :: v.data.drop i ∧
      v.capacity ≤ w.capacity ∧
      (v.length = v.capacity → v.capacity < w.capacity) := by
  unfold Vec.insert at h
  split at h
  · rename_i hle
    refine ⟨hle, ?_⟩
    split at h
    · exact absurd h (by simp)
    · rename_i u hu
      injection h with h
      subst h
      have hud : u.data = v.data ∧ v.capacity ≤ u.capacity ∧
          (v.length = v.capacity → v.capacity < u.capacity) := by
        split at hu
        · obtain ⟨h1, h2⟩ := Vec.grow_some hu
          exact ⟨h1, Nat.le_of_lt h2, fun _ => h2⟩
        · injection hu with hu
          subst hu
          rename_i hne
          exact ⟨rfl, le_refl _, fun hc => absurd hc hne⟩
      obtain ⟨h1, h2, h3⟩ := hud
      refine ⟨?_, h2, h3⟩
      have hul : u.length = v.length := by rw [Vec.length, Vec.length, h1]
      split
      · rw [h1]
      · rename_i hnl
        rw [hul] at hnl
        have hi : i = v.length := Nat.le_antisymm hle (Nat.le_of_not_lt hnl)
        rw [h1, hi, Vec.length, List.take_length, List.drop_length]
  · exact absurd h (by simp)

theorem Vec.remove_pos {α : Type} {v : Vec α} {i : Nat} (h : i < v.length) :
    v.remove i = some (v.data.get ⟨i, h⟩,
      { data := v.data.take i ++ v.data.drop (i + 1), capacity := v.capacity }) := by
  unfold Vec.remove
  rw [dif_pos h]

theorem Vec.remove_neg {α : Type} {v : Vec α} {i : Nat} (h : v.length ≤ i) :
    v.remove i = none := by
  unfold Vec.remove
  rw [dif_neg (Nat.not_lt.mpr h)]

theorem Vec.remove_some {α : Type} {v : Vec α} {i : Nat} {p : α × Vec α}
    (h : v.remove i = some p) :
    i < v.length ∧ p.2.data = v.data.take i ++ v.data.drop (i + 1) ∧
      p.2.capacity = v.capacity ∧ p.2.length = v.length - 1 := by
  unfold Vec.remove at h
  split at h
  · rename_i hi
    injection h with h
    subst h
    refine ⟨hi, rfl, rfl, ?_⟩
    simp only [Vec.length, List.length_append, List.length_take, List.length_drop] at hi ⊢
    omega
  · exact absurd h (by simp)

theorem Vec.pop_state {α : Type} (v : Vec α) :
    v.pop = (v.data.getLast?, { data := v.data.dropLast, capacity := v.capacity }) := by
  unfold Vec.pop
  split
  · rename_i h
    rw [Vec.length, List.length_eq_zero] at h
    cases v
    simp_all
  · rfl

theorem Vec.pop_nil {α : Type} {v : Vec α} (h : v.data = []) :
    v.pop = (none, v) := by
  unfold Vec.pop
  simp [Vec.length, h]

theorem Vec.pop_concat {α : Type} {v : Vec α} {l : List α} {a : α}
    (h : v.data = l ++ [a]) :
    v.pop = (some a, { data := l, capacity := v.capacity }) := by
  unfold Vec.pop
  simp [Vec.length, h]

theorem Vec.pushAll_some {α : Type} {es im : Nat} {l : List α} :
    ∀ {v w : Vec α}, Vec.pushAll es im v l = some w → w.data = v.data ++ l := by
  induction l with
  | nil =>
    intro v w h
    unfold Vec.pushAll at h
    injection h with h
    subst h
    simp
  | cons x xs ih =>
    intro v w h
    unfold Vec.pushAll at h
    split at h
    · exact absurd h (by simp)
    · rename_i u hu
      have h1 := (Vec.push_some hu).1
      have h2 := ih h
      rw [h2, h1]
      simp

theorem Vec.popN_spec {α : Type} :
    ∀ (l : List α) (v : Vec α), v.data = l →
      (Vec.popN l.length v).1 = l.reverse.map some ∧
      (Vec.popN l.length v).2 = { data := [], capacity := v.capacity } := by
  intro l
  induction l using List.reverseRecOn with
  | nil =>
    intro v h
    cases v
    simp_all [Vec.popN]
  | append_singleton l a ih =>
    intro v h
    have hp := Vec.pop_concat h
    have hlen : (l ++ [a]).length = l.length + 1 := by simp
    rw [hlen]
    unfold Vec.popN
    rw [hp]
    have := ih { data := l, capacity := v.capacity } rfl
    simp_all

/-! Helper lemmas about the consuming iterator. -/

theorem IntoIter.next_nil {α : Type} {it : IntoIter α} (h : it.elems = []) :
    it.next = (none, it) := by
  cases it
  simp_all [IntoIter.next]

theorem IntoIter.next_cons {α : Type} {it : IntoIter α} {x : α} {rest : List α}
    (h : it.elems = x :: rest) :
    it.next = (some x, { elems := rest, capacity := it.capacity }) := by
  cases it
  simp_all [IntoIter.next]

theorem IntoIter.next_back_nil {α : Type} {it : IntoIter α} (h : it.elems = []) :
    it.next_back = (none, it) := by
  cases it
  simp_all [IntoIter.next_back]

theorem IntoIter.next_back_concat {α : Type} {it : IntoIter α} {l : List α} {a : α}
    (h : it.elems = l ++ [a]) :
    it.next_back = (some a, { elems := l, capacity := it.capacity }) := by
  cases it
  simp_all [IntoIter.next_back]

theorem IntoIter.runOps_front_none {α : Type} {it it1 : IntoIter α} {ops : List Step}
    (h : it.next = (none, it1)) :
    it.runOps (Step.front :: ops) = it1.runOps ops := by
  rw [IntoIter.runOps, h]

theorem IntoIter.runOps_front_some {α : Type} {it it1 : IntoIter α} {x : α}
    {ops : List Step} (h : it.next = (some x, it1)) :
    it.runOps (Step.front :: ops) =
      (x :: (it1.runOps ops).1, (it1.runOps ops).2.1, (it1.runOps ops).2.2) := by
  rw [IntoIter.runOps, h]

theorem IntoIter.runOps_back_none {α : Type} {it it1 : IntoIter α} {ops : List Step}
    (h : it.next_back = (none, it1)) :
    it.runOps (Step.back :: ops) = it1.runOps ops := by
  rw [IntoIter.runOps, h]

theorem IntoIter.runOps_back_some {α : Type} {it it1 : IntoIter α} {x : α}
    {ops : List Step} (h : it.next_back = (some x, it1)) :
    it.runOps (Step.back :: ops) =
      ((it1.runOps ops).1, x :: (it1.runOps ops).2.1, (it1.runOps ops).2.2) := by
  rw [IntoIter.runOps, h]

theorem IntoIter.runOps_spec {α : Type} :
    ∀ (ops : List Step) (it : IntoIter α),
      (it.runOps ops).1 ++ (it.runOps ops).2.2.elems ++ (it.runOps ops).2.1.reverse
          = it.elems ∧
      (it.runOps ops).2.2.capacity = it.capacity := by
  intro ops
  induction ops with
  | nil =>
    intro it
    simp [IntoIter.runOps]
  | cons op ops ih =>
    intro it
    cases op with
    | front =>
      rcases hE : it.elems with _ | ⟨x, rest⟩
      · rw [IntoIter.runOps_front_none (IntoIter.next_nil hE)]
        have h1 := ih it
        rw [hE] at h1
        exact h1
      · rw [IntoIter.runOps_front_some (IntoIter.next_cons hE)]
        have h1 := ih { elems := rest, capacity := it.capacity }
        simp_all
    | back =>
      rcases List.eq_nil_or_concat it.elems with hE | ⟨l, a, hE⟩
      · rw [IntoIter.runOps_back_none (IntoIter.next_back_nil hE), hE]
        have h1 := ih it
        rw [hE] at h1
        exact h1
      · rw [List.concat_eq_append] at hE
        rw [IntoIter.runOps_back_some (IntoIter.next_back_concat hE), hE]
        have h1 := ih { elems := l, capacity := it.capacity }
        obtain ⟨h2, h3⟩ := h1
        refine ⟨?_, by simpa using h3⟩
        simp only [List.reverse_cons]
        simp only [← List.append_assoc] at h2 ⊢
        simp only [h2]

theorem IntoIter.drain_eq_list {α : Type} :
    ∀ (l : List α) (c : Nat), IntoIter.drain { elems := l, capacity := c } = l := by
  intro l
  induction l with
  | nil =>
    intro c
    unfold IntoIter.drain
    simp
  | cons x rest ih =>
    intro c
    unfold IntoIter.drain
    simp [ih]

theorem IntoIter.drain_eq {α : Type} (it : IntoIter α) : it.drain = it.elems := by
  cases it
  exact IntoIter.drain_eq_list _ _

theorem IntoIter.runTrace_of_nil {α : Type} :
    ∀ (ops : List Step) (it : IntoIter α), it.elems = [] →
      it.runTrace ops = (ops.map (fun _ => none), it) := by
  intro ops
  induction ops with
  | nil =>
    intro it h
    simp [IntoIter.runTrace]
  | cons op ops ih =>
    intro it h
    unfold IntoIter.runTrace
    cases op with
    | front =>
      rw [IntoIter.next_nil h]
      simp [ih it h]
    | back =>
      rw [IntoIter.next_back_nil h]
      simp [ih it h]

theorem Vec.into_iter_elems {α : Type} {v : Vec α} (h : v.length ≤ v.capacity) :
    v.into_iter.elems = v.data ∧ v.into_iter.capacity = v.capacity := by
  unfold Vec.into_iter
  rcases Nat.eq_zero_or_pos v.capacity with hc | hc
  · have hlen : v.data.length = 0 := by
      rw [Vec.length] at h
      omega
    have hd : v.data = [] := List.eq_nil_of_length_eq_zero hlen
    simp [hc, hd]
  · have : v.capacity ≠ 0 := by omega
    simp [this]


/-! The claims. -/

/-- Claim C1: for every container created empty and subjected to any
sequence of push calls that runs to completion, length() returns the
number of pushes, successive pop() calls return the pushed values in
exact reverse push order, and the pop() after those returns none. -/
theorem claim1_push_length_pop_reverse {α : Type} (es im : Nat) (l : List α)
    (v0 v : Vec α) (hnew : Vec.new α es = some v0)
    (hpush : Vec.pushAll es im v0 l = some v) :
    v.length = l.length ∧
    (Vec.popN l.length v).1 = l.reverse.map some ∧
    ((Vec.popN l.length v).2).pop = (none, (Vec.popN l.length v).2) := by
  have hv0 : v0 = { data := [], capacity := 0 } := by
    unfold Vec.new at hnew
    split at hnew
    · exact absurd hnew (by simp)
    · injection hnew with hnew
      exact hnew.symm
  subst hv0
  have hdata : v.data = l := by simpa using Vec.pushAll_some hpush
  obtain ⟨h1, h2⟩ := Vec.popN_spec l v hdata
  refine ⟨by rw [Vec.length, hdata], h1, ?_⟩
  rw [h2]
  exact Vec.pop_nil rfl

/-- Witness for claim C1 at an element size of 8 bytes, isize::MAX 1000
and the push sequence 1, 2, 3. -/
theorem claim1_witness :
    Vec.length { data := [1, 2, 3], capacity := 4 } = ([1, 2, 3] : List Nat).length ∧
    (Vec.popN ([1, 2, 3] : List Nat).length { data := [1, 2, 3], capacity := 4 }).1
        = ([1, 2, 3] : List Nat).reverse.map some ∧
    ((Vec.popN ([1, 2, 3] : List Nat).length
        { data := [1, 2, 3], capacity := 4 }).2).pop
      = (none, (Vec.popN ([1, 2, 3] : List Nat).length
          { data := [1, 2, 3], capacity := 4 }).2) :=
  claim1_push_length_pop_reverse 8 1000 [1, 2, 3] { data := [], capacity := 0 }
    { data := [1, 2, 3], capacity := 4 } (by rfl) (by rfl)

/-- Claim C3: insert(i, x) aborts when i exceeds the length; otherwise on
success it shifts the elements formerly at [i, n) one slot right, writes
x into slot i (preserving the relative order of the others) and
increments the length by exactly 1; insert at the length is the same
operation as push. -/
theorem claim3_insert_spec {α : Type} (es im : Nat) (v : Vec α) (i : Nat) (x : α) :
    (v.length < i → v.insert es im i x = none) ∧
    (∀ w, v.insert es im i x = some w →
        w.data = v.data.take i ++ x :: v.data.drop i ∧ w.length = v.length + 1) ∧
    v.insert es im v.length x = v.push es im x := by
  refine ⟨?_, ?_, ?_⟩
  · intro hlt
    unfold Vec.insert
    rw [if_neg (by omega)]
  · intro w hw
    obtain ⟨hle, hdata, _, _⟩ := Vec.insert_some hw
    refine ⟨hdata, ?_⟩
    rw [Vec.length] at hle
    simp only [Vec.length, hdata, List.length_append, List.length_take,
      List.length_cons, List.length_drop]
    omega
  · unfold Vec.insert Vec.push
    rw [if_pos (le_refl _)]
    cases hu : (if v.length = v.capacity then v.grow es im else some v) with
    | none => rfl
    | some u =>
      have hud : u.data = v.data := by
        split at hu
        · exact (Vec.grow_some hu).1
        · injection hu with hu
          rw [← hu]
      have hnl : ¬ v.length < u.length := by
        simp only [Vec.length, hud]
        omega
      dsimp only
      rw [if_neg hnl]

/-- Witness for claim C3 at the container [10, 20] with capacity 2,
inserting 5 at index 1, with an element size of 4 and isize::MAX 100:
the success case of the claim, hypothesis discharged by evaluation. -/
theorem claim3_witness :
    ({ data := [10, 5, 20], capacity := 4 } : Vec Nat).data
        = ([10, 20] : List Nat).take 1 ++ 5 :: ([10, 20] : List Nat).drop 1 ∧
    Vec.length ({ data := [10, 5, 20], capacity := 4 } : Vec Nat)
        = Vec.length ({ data := [10, 20], capacity := 2 } : Vec Nat) + 1 :=
  (claim3_insert_spec 4 100 { data := [10, 20], capacity := 2 } 1 5).2.1
    { data := [10, 5, 20], capacity := 4 } (by rfl)

/-- Claim C4: remove(i) aborts when i is not below the length; otherwise
it returns the element at index i, shifts the elements formerly at
[i+1, n) one slot left preserving their relative order, and decrements
the length by exactly 1; removing indices 9, 4, 0 in that order from
[7,1,1,2,7,3,5,8,13,7] leaves [1,1,2,3,5,8,13]. -/
theorem claim4_remove_spec {α : Type} (v : Vec α) (i : Nat) :
    (v.length ≤ i → v.remove i = none) ∧
    (∀ h : i < v.length,
        v.remove i = some (v.data.get ⟨i, h⟩,
          { data := v.data.take i ++ v.data.drop (i + 1), capacity := v.capacity })) ∧
    (∀ p, v.remove i = some p →
        p.2.length = v.length - 1 ∧ p.2.capacity = v.capacity) ∧
    ((do
        let p1 ← Vec.remove { data := [7, 1, 1, 2, 7, 3, 5, 8, 13, 7], capacity := 16 } 9
        let p2 ← Vec.remove p1.2 4
        let p3 ← Vec.remove p2.2 0
        pure p3.2.data) = some ([1, 1, 2, 3, 5, 8, 13] : List Nat)) := by
  refine ⟨fun h => Vec.remove_neg h, fun h => Vec.remove_pos h, ?_, by decide⟩
  intro p hp
  obtain ⟨_, _, h3, h4⟩ := Vec.remove_some hp
  exact ⟨h4, h3⟩

/-- Witness for claim C4 at the container [5, 6, 7] with capacity 4,
removing index 1. -/
theorem claim4_witness :
    Vec.remove { data := ([5, 6, 7] : List Nat), capacity := 4 } 1
      = some (6, { data := [5, 7], capacity := 4 }) := by
  have h := (claim4_remove_spec { data := ([5, 6, 7] : List Nat), capacity := 4 } 1).2.1
    (by decide)
  rw [h]
  rfl

/-- Claim C5: an insertion finding length = capacity runs grow first;
grow sets the capacity to exactly 1 when it was 0 and to twice its value
otherwise, aborting in the doubling case when the old byte size
capacity * elemSize exceeds half of isize::MAX; on success the stored
elements are preserved at their indices. -/
theorem claim5_grow_spec {α : Type} (es im : Nat) (v : Vec α) (x : α) :
    (v.capacity = 0 → v.grow es im = some { data := v.data, capacity := 1 }) ∧
    (v.capacity ≠ 0 → v.capacity * es ≤ im / 2 →
        v.grow es im = some { data := v.data, capacity := v.capacity * 2 }) ∧
    (v.capacity ≠ 0 → im / 2 < v.capacity * es → v.grow es im = none) ∧
    (∀ w, v.grow es im = some w → w.data = v.data) ∧
    (v.length = v.capacity →
        v.push es im x = match v.grow es im with
          | none => none
          | some w => some { w with data := w.data ++ [x] }) := by
  refine ⟨?_, ?_, ?_, fun w hw => (Vec.grow_some hw).1, ?_⟩
  · intro h
    unfold Vec.grow
    rw [if_pos h]
  · intro h1 h2
    unfold Vec.grow
    rw [if_neg h1]
    dsimp only
    rw [if_pos h2]
  · intro h1 h2
    unfold Vec.grow
    rw [if_neg h1]
    dsimp only
    rw [if_neg (by omega)]
  · intro hc
    unfold Vec.push
    rw [if_pos hc]

/-- Witness for claim C5 at the container [9] with capacity 1 and
length 1, an element size of 4 and isize::MAX 100: the doubling case of
grow and the grow-first unfolding of push, hypotheses discharged by
evaluation. -/
theorem claim5_witness :
    Vec.grow 4 100 { data := ([9] : List Nat), capacity := 1 }
        = some { data := ([9] : List Nat), capacity := 1 * 2 } ∧
    Vec.push 4 100 { data := ([9] : List Nat), capacity := 1 } 2
        = match Vec.grow 4 100 { data := ([9] : List Nat), capacity := 1 } with
          | none => none
          | some w => some { w with data := w.data ++ [2] } :=
  ⟨(claim5_grow_spec 4 100 { data := [9], capacity := 1 } 2).2.1
      (by decide) (by decide),
   (claim5_grow_spec 4 100 { data := [9], capacity := 1 } 2).2.2.2.2
      (by rfl)⟩

/-- Claim C2: for a consumed container holding [1,1,2,3,5,8,13] the call
sequence next, next, next_back, next_back, next_back, next, next yields
1, 1, 13, 8, 5, 2, 3, after which both next and next_back yield none;
in general, over any mixed sequence of next and next_back calls the
values yielded by next form a prefix of the elements in forward index
order, the values yielded by next_back form the matching suffix in
reverse index order from the back, and together with the unextracted
elements they cover every original element exactly once. -/
theorem claim2_intoIter_mixed {α : Type} (v : Vec α) (hinv : v.length ≤ v.capacity)
    (ops : List Step) :
    (v.into_iter.runOps ops).1 ++ (v.into_iter.runOps ops).2.2.elems
        ++ (v.into_iter.runOps ops).2.1.reverse = v.data ∧
    ((Vec.into_iter { data := ([1, 1, 2, 3, 5, 8, 13] : List Nat), capacity := 8 }).runTrace
          [Step.front, Step.front, Step.back, Step.back, Step.back,
           Step.front, Step.front]).1
        = [some 1, some 1, some 13, some 8, some 5, some 2, some 3] ∧
    (((Vec.into_iter { data := ([1, 1, 2, 3, 5, 8, 13] : List Nat), capacity := 8 }).runTrace
          [Step.front, Step.front, Step.back, Step.back, Step.back,
           Step.front, Step.front]).2.next
        = (none,
           ((Vec.into_iter { data := ([1, 1, 2, 3, 5, 8, 13] : List Nat), capacity := 8 }).runTrace
          [Step.front, Step.front, Step.back, Step.back, Step.back,
           Step.front, Step.front]).2) ∧
     ((Vec.into_iter { data := ([1, 1, 2, 3, 5, 8, 13] : List Nat), capacity := 8 }).runTrace
          [Step.front, Step.front, Step.back, Step.back, Step.back,
           Step.front, Step.front]).2.next_back
        = (none,
           ((Vec.into_iter { data := ([1, 1, 2, 3, 5, 8, 13] : List Nat), capacity := 8 }).runTrace
          [Step.front, Step.front, Step.back, Step.back, Step.back,
           Step.front, Step.front]).2)) := by
  refine ⟨?_, by decide, by decide, by decide⟩
  exact (IntoIter.runOps_spec ops v.into_iter).1.trans (Vec.into_iter_elems hinv).1

/-- Witness for claim C2 at the container [1, 2] with capacity 2 and the
call sequence next, next_back, hypothesis discharged by evaluation. -/
theorem claim2_witness :
    ((Vec.into_iter { data := ([1, 2] : List Nat), capacity := 2 }).runOps
          [Step.front, Step.back]).1
        ++ ((Vec.into_iter { data := ([1, 2] : List Nat), capacity := 2 }).runOps
          [Step.front, Step.back]).2.2.elems
        ++ ((Vec.into_iter { data := ([1, 2] : List Nat), capacity := 2 }).runOps
          [Step.front, Step.back]).2.1.reverse
      = [1, 2] :=
  (claim2_intoIter_mixed { data := [1, 2], capacity := 2 } (by decide)
    [Step.front, Step.back]).1

/-- Claim C6: destroying the consuming iterator after any mixed call
sequence destroys, by repeated forward extraction, exactly the
not-yet-extracted elements, so every original element is extracted or
destroyed exactly once; the deallocation is sized by the original
capacity and performed exactly once, and is skipped entirely when the
capacity is 0, so the buffer is never freed twice and never leaked. -/
theorem claim6_intoIter_drop {α : Type} (v : Vec α) (hinv : v.length ≤ v.capacity)
    (ops : List Step) :
    (((v.into_iter.runOps ops).2.2).drop).1 = (v.into_iter.runOps ops).2.2.elems ∧
    (v.into_iter.runOps ops).1 ++ (((v.into_iter.runOps ops).2.2).drop).1
        ++ (v.into_iter.runOps ops).2.1.reverse = v.data ∧
    (v.into_iter.runOps ops).2.2.capacity = v.capacity ∧
    (((v.into_iter.runOps ops).2.2).drop).2 = (if v.capacity = 0 then 0 else 1) := by
  obtain ⟨hio1, hio2⟩ := Vec.into_iter_elems hinv
  obtain ⟨hr1, hr2⟩ := IntoIter.runOps_spec ops v.into_iter
  have hcap : (v.into_iter.runOps ops).2.2.capacity = v.capacity := hr2.trans hio2
  have hmain : (v.into_iter.runOps ops).1 ++ (v.into_iter.runOps ops).2.2.elems
      ++ (v.into_iter.runOps ops).2.1.reverse = v.data := hr1.trans hio1
  by_cases hc : v.capacity = 0
  · have hz : ¬ (v.into_iter.runOps ops).2.2.capacity ≠ 0 := by
      rw [hcap, hc]
      simp
    have hdrop : ((v.into_iter.runOps ops).2.2).drop = ([], 0) := by
      unfold IntoIter.drop
      rw [if_neg hz]
    have hdata : v.data = [] := by
      rw [Vec.length, hc, Nat.le_zero, List.length_eq_zero] at hinv
      exact hinv
    have hde : (v.into_iter.runOps ops).2.2.elems = [] := by
      have h1 := hmain
      rw [hdata] at h1
      exact (List.append_eq_nil.mp (List.append_eq_nil.mp h1).1).2
    refine ⟨?_, ?_, hcap, ?_⟩
    · rw [hdrop, hde]
    · rw [hdrop]
      rw [hde] at hmain
      exact hmain
    · rw [hdrop, if_pos hc]
  · have hz : (v.into_iter.runOps ops).2.2.capacity ≠ 0 := by
      rw [hcap]
      exact hc
    have hdrop : ((v.into_iter.runOps ops).2.2).drop
        = ((v.into_iter.runOps ops).2.2.drain, 1) := by
      unfold IntoIter.drop
      rw [if_pos hz]
    refine ⟨?_, ?_, hcap, ?_⟩
    · rw [hdrop]
      exact IntoIter.drain_eq _
    · rw [hdrop]
      dsimp only
      rw [IntoIter.drain_eq]
      exact hmain
    · rw [hdrop, if_neg hc]

/-- Witness for claim C6 at the container [1, 2, 3] with capacity 4 and
the call sequence of one next call, hypothesis discharged by
evaluation. -/
theorem claim6_witness :
    ((Vec.into_iter { data := ([1, 2, 3] : List Nat), capacity := 4 }).runOps
          [Step.front]).1
        ++ ((((Vec.into_iter { data := ([1, 2, 3] : List Nat), capacity := 4 }).runOps
          [Step.front]).2.2).drop).1
        ++ ((Vec.into_iter { data := ([1, 2, 3] : List Nat), capacity := 4 }).runOps
          [Step.front]).2.1.reverse
      = [1, 2, 3] :=
  (claim6_intoIter_drop { data := [1, 2, 3], capacity := 4 } (by decide)
    [Step.front]).2.1

/-- Claim C7: pop on an empty container, and next or next_back on an
exhausted iterator, always yield none and leave the state unchanged,
however many times the calls are repeated. -/
theorem claim7_empty_idempotent {α : Type} (v : Vec α) (it : IntoIter α) :
    (v.length = 0 →
        v.pop = (none, v) ∧ ∀ n, Vec.popN n v = (List.replicate n none, v)) ∧
    (it.elems = [] →
        it.next = (none, it) ∧ it.next_back = (none, it) ∧
        ∀ ops : List Step, it.runTrace ops = (ops.map (fun _ => none), it)) := by
  constructor
  · intro h0
    have hd : v.data = [] := by
      rw [Vec.length, List.length_eq_zero] at h0
      exact h0
    have hp := Vec.pop_nil hd
    refine ⟨hp, ?_⟩
    intro n
    induction n with
    | zero => rfl
    | succ n ihn =>
      simp only [Vec.popN, hp, ihn, List.replicate_succ]
  · intro h
    exact ⟨IntoIter.next_nil h, IntoIter.next_back_nil h,
      fun ops => IntoIter.runTrace_of_nil ops it h⟩

/-- Witness for claim C7 at the empty container and the exhausted
iterator, hypotheses discharged by evaluation. -/
theorem claim7_witness :
    Vec.popN 2 { data := ([] : List Nat), capacity := 0 }
        = (List.replicate 2 none, { data := ([] : List Nat), capacity := 0 }) ∧
    IntoIter.next { elems := ([] : List Nat), capacity := 0 }
        = (none, { elems := ([] : List Nat), capacity := 0 }) := by
  have h := claim7_empty_idempotent { data := ([] : List Nat), capacity := 0 }
    { elems := ([] : List Nat), capacity := 0 }
  exact ⟨(h.1 (by rfl)).2 2, (h.2 (by rfl)).1⟩

/-- Claim C8: the invariant length ≤ capacity holds for the container
produced by new (where both are 0) and is preserved by grow, push, pop,
insert and remove. -/
theorem claim8_length_le_capacity {α : Type} (es im : Nat) :
    (∀ u : Vec α, Vec.new α es = some u → u.length = 0 ∧ u.capacity = 0) ∧
    (∀ v w : Vec α, v.length ≤ v.capacity → v.grow es im = some w →
        w.length ≤ w.capacity) ∧
    (∀ (v w : Vec α) (x : α), v.length ≤ v.capacity → v.push es im x = some w →
        w.length ≤ w.capacity) ∧
    (∀ v : Vec α, v.length ≤ v.capacity →
        (v.pop).2.length ≤ (v.pop).2.capacity) ∧
    (∀ (v w : Vec α) (i : Nat) (x : α), v.length ≤ v.capacity →
        v.insert es im i x = some w → w.length ≤ w.capacity) ∧
    (∀ (v : Vec α) (i : Nat) (p : α × Vec α), v.length ≤ v.capacity →
        v.remove i = some p → p.2.length ≤ p.2.capacity) := by
  refine ⟨?_, ?_, ?_, ?_, ?_, ?_⟩
  · intro u hu
    unfold Vec.new at hu
    split at hu
    · exact absurd hu (by simp)
    · injection hu with hu
      subst hu
      exact ⟨rfl, rfl⟩
  · intro v w hinv hg
    obtain ⟨h1, h2⟩ := Vec.grow_some hg
    rw [Vec.length, h1]
    rw [Vec.length] at hinv
    omega
  · intro v w x hinv hp
    obtain ⟨h1, h2, h3⟩ := Vec.push_some hp
    rw [Vec.length, h1, List.length_append, List.length_cons, List.length_nil]
    rw [Vec.length] at hinv
    by_cases hc : v.length = v.capacity
    · have h4 := h3 hc
      rw [Vec.length] at hc
      omega
    · rw [Vec.length] at hc
      omega
  · intro v hinv
    rw [Vec.pop_state]
    rw [Vec.length] at hinv ⊢
    simp only [List.length_dropLast]
    omega
  · intro v w i x hinv hi
    obtain ⟨hle, h1, h2, h3⟩ := Vec.insert_some hi
    rw [Vec.length] at hle hinv
    rw [Vec.length, h1, List.length_append, List.length_take, List.length_cons,
      List.length_drop]
    by_cases hc : v.length = v.capacity
    · have h4 := h3 hc
      rw [Vec.length] at hc
      omega
    · rw [Vec.length] at hc
      omega
  · intro v i p hinv hr
    obtain ⟨h1, h2, h3, h4⟩ := Vec.remove_some hr
    rw [Vec.length] at hinv
    rw [h3, h4, Vec.length]
    omega

/-- Witness for claim C8 at a push on the full container [3] with
capacity 1, element size 4 and isize::MAX 100, hypotheses discharged by
evaluation. -/
theorem claim8_witness :
    Vec.length ({ data := [3, 5], capacity := 2 } : Vec Nat)
      ≤ ({ data := [3, 5], capacity := 2 } : Vec Nat).capacity := by
  have h := (claim8_length_le_capacity 4 100).2.2.1
    { data := ([3] : List Nat), capacity := 1 } { data := [3, 5], capacity := 2 } 5
    (by decide) (by rfl)
  exact h

/-- Claim C9: pop and remove never change the capacity, modifying only
the length and the live element prefix, and no operation ever decreases
the capacity, so the capacity never decreases during the container's
lifetime. -/
theorem claim9_capacity_frame {α : Type} (es im : Nat) :
    (∀ v : Vec α,
        v.pop = (v.data.getLast?,
          { data := v.data.dropLast, capacity := v.capacity })) ∧
    (∀ (v : Vec α) (i : Nat) (p : α × Vec α), v.remove i = some p →
        p.2.capacity = v.capacity ∧
        p.2.data = v.data.take i ++ v.data.drop (i + 1)) ∧
    (∀ v w : Vec α, v.grow es im = some w → v.capacity ≤ w.capacity) ∧
    (∀ (v w : Vec α) (x : α), v.push es im x = some w →
        v.capacity ≤ w.capacity) ∧
    (∀ (v w : Vec α) (i : Nat) (x : α), v.insert es im i x = some w →
        v.capacity ≤ w.capacity) := by
  refine ⟨Vec.pop_state, ?_, ?_, ?_, ?_⟩
  · intro v i p hr
    obtain ⟨_, h2, h3, _⟩ := Vec.remove_some hr
    exact ⟨h3, h2⟩
  · intro v w hg
    exact Nat.le_of_lt (Vec.grow_some hg).2
  · intro v w x hp
    exact (Vec.push_some hp).2.1
  · intro v w i x hi
    exact (Vec.insert_some hi).2.2.1

/-- Witness for claim C9 at a remove on the container [4, 5] with
capacity 2, hypothesis discharged by evaluation. -/
theorem claim9_witness :
    ({ data := [5], capacity := 2 } : Vec Nat).capacity
        = ({ data := [4, 5], capacity := 2 } : Vec Nat).capacity ∧
    ({ data := [5], capacity := 2 } : Vec Nat).data
        = ([4, 5] : List Nat).take 0 ++ ([4, 5] : List Nat).drop (0 + 1) :=
  (claim9_capacity_frame 4 100).2.1 { data := ([4, 5] : List Nat), capacity := 2 } 0
    (4, { data := [5], capacity := 2 }) (by rfl)


/-! Helper lemmas relating the draft container of src/lib.rs to the
final container of src/vec.rs. -/

theorem draftToVec_grow {α : Type} (es im : Nat) (d : Draft.Vec α) :
    Option.map draftToVec (d.grow es im) = (draftToVec d).grow es im := by
  cases d
  simp only [Draft.Vec.grow, Vec.grow, draftToVec]
  split_ifs <;> rfl

theorem draftToVec_push {α : Type} (es im : Nat) (d : Draft.Vec α) (x : α) :
    Option.map draftToVec (d.push es im x) = (draftToVec d).push es im x := by
  have hg := draftToVec_grow es im d
  rw [Draft.Vec.push, Vec.push]
  by_cases hc : d.data.length = d.capacity
  · rw [if_pos hc,
      if_pos (show (draftToVec d).length = (draftToVec d).capacity from hc)]
    rw [← hg]
    cases d.grow es im with
    | none => rfl
    | some u => rfl
  · rw [if_neg hc,
      if_neg (show ¬ (draftToVec d).length = (draftToVec d).capacity from hc)]
    rfl

theorem draftToVec_pop {α : Type} (d : Draft.Vec α) :
    d.pop.1 = (draftToVec d).pop.1 ∧ draftToVec d.pop.2 = (draftToVec d).pop.2 := by
  rw [Draft.Vec.pop, Vec.pop]
  by_cases hc : d.data.length = 0
  · rw [if_pos hc, if_pos (show (draftToVec d).length = 0 from hc)]
    exact ⟨rfl, rfl⟩
  · rw [if_neg hc, if_neg (show ¬ (draftToVec d).length = 0 from hc)]
    exact ⟨rfl, rfl⟩

theorem draftToVec_run {α : Type} (es im : Nat) :
    ∀ (ops : List (VOp α)) (d : Draft.Vec α),
      Vec.run es im (draftToVec d) ops
        = Option.map (fun r => (r.1, draftToVec r.2)) (Draft.Vec.run es im d ops) := by
  intro ops
  induction ops with
  | nil =>
    intro d
    rfl
  | cons op ops ih =>
    intro d
    cases op with
    | push x =>
      simp only [Vec.run, Draft.Vec.run]
      rw [← draftToVec_push]
      cases d.push es im x with
      | none => rfl
      | some w => exact ih w
    | pop =>
      simp only [Vec.run, Draft.Vec.run]
      obtain ⟨h1, h2⟩ := draftToVec_pop d
      rw [← h1, ← h2, ih d.pop.2]
      cases Draft.Vec.run es im d.pop.2 ops with
      | none => rfl
      | some r => rfl

/-- Claim C10: starting from the state produced by new, any identical
sequence of push and pop calls on the superseded draft container of
src/lib.rs and on the final container of src/vec.rs produces identical
pop return values, identical aborts, and identical final length,
capacity and stored element sequence; new itself also agrees. -/
theorem claim10_draft_equiv {α : Type} (es im : Nat) (ops : List (VOp α)) :
    Vec.run es im { data := [], capacity := 0 } ops
        = Option.map (fun r => (r.1, draftToVec r.2))
            (Draft.Vec.run es im { data := [], capacity := 0 } ops) ∧
    Vec.new α es = Option.map draftToVec (Draft.Vec.new α es) := by
  constructor
  · exact draftToVec_run es im ops { data := [], capacity := 0 }
  · unfold Vec.new Draft.Vec.new
    split_ifs <;> rfl
